import Mathlib

/-!
# Verification of the sanskriti tree-walking interpreter

A shallow embedding of `src/interpreter.rs` and `src/translator.rs` from the
sanskriti repository, together with theorems settling the frozen claims about
its specification.

Modelling decisions, stated once:

* Rust `f64` numbers are modelled twice.  The primary model carries them as
  `ℚ`: exact, decidable, and adequate for every claim whose truth does not
  depend on special float values.  The claims about division and equality are
  sensitive to IEEE-754 specials (infinities propagate through `/`, and NaN
  compares unequal to itself), so a refined model `F` — finite doubles
  carried exactly as rationals, plus `inf`, `-inf` and `NaN` with the
  IEEE-754 propagation rules — and a parallel evaluator `evalF` settle those
  two claims.  Finite-arithmetic overflow and signed zero are not modelled;
  the special values are themselves `f64` values, so claims quantifying over
  all runtime values already range over them.
* The `HashMap<String, Value>` environment is modelled as a function
  `String → Option Value`; `insert` is pointwise update.
* `parse.rs` is not part of the sources provided, so the shape of `TokenTree`,
  `Atom` and `Op` is reconstructed from every pattern `interpreter.rs` matches
  on, plus the description of the tree in the specification (its section 3).
  The payloads of the `Fun` and `Call` variants are modelled from the spec:
  the interpreter never inspects them.
* Statement execution can diverge (a `while` loop), so `exec` takes fuel and
  returns `none` exactly when the fuel runs out.  Expression evaluation in the
  source never loops, so `eval` is a total function.
-/

/-- Terminal syntax-tree nodes, as matched by `eval_expr` in
`interpreter.rs` (Rust `Atom`).  Numbers are modelled as rationals. -/
inductive Atom where
  | number (n : ℚ)
  | bool (b : Bool)
  | nil
  | string (s : String)
  | ident (name : String)
  | superTok
  | thisTok
deriving DecidableEq

/-- Operator tags appearing in `Cons` nodes.  These are the constructors
`interpreter.rs` pattern-matches on; any operator the parser might add beyond
them would fall into the same catch-all arm as a malformed shape. -/
inductive Op where
  | group
  | var
  | print
  | whileOp
  | minus
  | bang
  | assign
  | plus
  | star
  | slash
  | less
  | lessEqual
  | greater
  | greaterEqual
  | equalEqual
  | bangEqual
  | andOp
  | orOp
deriving DecidableEq

/-- Runtime values (Rust `enum Value` in `interpreter.rs`), with `f64`
modelled as `ℚ`. -/
inductive Value where
  | nil
  | number (n : ℚ)
  | bool (b : Bool)
  | string (s : String)
deriving DecidableEq

namespace Value

/-- Rust `Value::is_truthy`: `Nil` and `Bool(false)` are falsy, everything
else is truthy. -/
def is_truthy : Value → Bool
  | .nil => false
  | .bool b => b
  | _ => true

/-- Rust `Value::to_display`.  The number case prints `n` followed by `.0`
when `n` is integral (Rust: `n == n.trunc()`, here: denominator 1); the
non-integral branch of the Rust code prints the default `f64` decimal form,
which under the rational model is rendered by `toString`. -/
def to_display : Value → String
  | .nil => "nil"
  | .number n => if n.den = 1 then toString n.num ++ ".0" else toString n
  | .bool b => toString b
  | .string s => s

/-- Variant test used to state the claims about `+` and `/`. -/
def isNumber : Value → Bool
  | .number _ => true
  | _ => false

/-- Variant test used to state the claims about `+`. -/
def isString : Value → Bool
  | .string _ => true
  | _ => false

end Value

/-- The variable environment: Rust `struct Env { vars: HashMap<String, Value> }`
modelled as a lookup function. -/
def Env : Type := String → Option Value

/-- Rust `Env::default()`: the empty map. -/
def emptyEnv : Env := fun _ => none

namespace Env

/-- Rust `Env::define`: `HashMap::insert`, i.e. pointwise update. -/
def define (env : Env) (name : String) (value : Value) : Env :=
  fun n => if n = name then some value else env n

/-- Rust `Env::assign`: overwrite the slot when the name is bound, otherwise
fall back to `define`.  (Both branches insert; the branch structure of the
source is kept.) -/
def assign (env : Env) (name : String) (value : Value) : Env :=
  match env name with
  | some _ => fun n => if n = name then some value else env n
  | none => env.define name value

/-- Rust `Env::get`: clone the bound value, defaulting to `Nil`. -/
def get (env : Env) (name : String) : Value :=
  match env name with
  | some v => v
  | none => .nil

end Env

/-- The syntax tree (Rust `enum TokenTree` from the absent `parse.rs`),
reconstructed from the patterns `interpreter.rs` matches on.  Modelled from
the spec: the payloads of `funDecl` and `call` follow the description
"function declaration/call forms" in section 3 of the specification; the
interpreter ignores them entirely, so nothing below depends on their shape. -/
inductive TokenTree where
  | atom (a : Atom)
  | cons (op : Op) (children : List TokenTree)
  | ifS (condition : TokenTree) (yes : TokenTree) (no : Option TokenTree)
  | funDecl (name : String) (params : List String) (body : TokenTree)
  | call (callee : TokenTree) (args : List TokenTree)

/-- Extra termination weight of an operator: the `BangEqual` arm of
`eval_expr` re-enters the evaluator on a freshly built `EqualEqual` node over
the same children, so `BangEqual` nodes must weigh strictly more. -/
def opExtra : Op → Nat
  | .bangEqual => 1
  | _ => 0

mutual

/-- Weighted size of a tree, the termination measure for `eval`. -/
def TokenTree.size : TokenTree → Nat
  | .atom _ => 1
  | .cons op children => 1 + opExtra op + TokenTree.sizeList children
  | .ifS c y no =>
      1 + c.size + y.size + (match no with | some t => t.size | none => 0)
  | .funDecl _ _ body => 1 + body.size
  | .call callee args => 1 + callee.size + TokenTree.sizeList args

/-- Summed weighted size of a list of trees. -/
def TokenTree.sizeList : List TokenTree → Nat
  | [] => 0
  | t :: ts => t.size + TokenTree.sizeList ts

end

/-- Equality of two runtime values, exactly the `match` inside the
`EqualEqual` arm of `eval_expr`: same-variant pairs compare by value,
cross-variant pairs are unequal. -/
def valueEq : Value → Value → Bool
  | .nil, .nil => true
  | .bool x, .bool y => x == y
  | .number x, .number y => x == y
  | .string x, .string y => x == y
  | _, _ => false

/-- Rust `Interpreter::eval_expr`.  The interpreter state is the environment;
expression evaluation writes no output (only `exec` prints), so `eval`
returns the value together with the possibly mutated environment.  Each arm
mirrors one arm of the Rust `match`; the final wildcard is the source
catch-all that maps every unmatched operator/children shape to `Nil`. -/
def eval : TokenTree → Env → Value × Env
  | .atom a, env =>
    match a with
    | .number n => (.number n, env)
    | .bool b => (.bool b, env)
    | .nil => (.nil, env)
    | .string s => (.string s, env)
    | .ident name => (env.get name, env)
    | .superTok => (.nil, env)
    | .thisTok => (.nil, env)
  | .cons op children, env =>
    match op, children with
    | .group, [] => (.nil, env)
    | .group, first :: _ => eval first env
    | .minus, [e] =>
      match eval e env with
      | (.number n, env') => (.number (-n), env')
      | (_, env') => (.nil, env')
    | .bang, [e] =>
      match eval e env with
      | (v, env') => (.bool (!v.is_truthy), env')
    | .assign, [.atom (.ident name), e] =>
      match eval e env with
      | (v, env') => (v, env'.assign name v)
    | .plus, [lhs, rhs] =>
      match eval lhs env with
      | (a, env1) =>
        match eval rhs env1 with
        | (b, env2) =>
          (match a, b with
           | .number x, .number y => .number (x + y)
           | .string x, .string y => .string (x ++ y)
           | .string x, b' => .string (x ++ b'.to_display)
           | a', .string y => .string (a'.to_display ++ y)
           | _, _ => .nil, env2)
    | .minus, [lhs, rhs] =>
      match eval lhs env with
      | (a, env1) =>
        match eval rhs env1 with
        | (b, env2) =>
          (match a, b with
           | .number x, .number y => .number (x - y)
           | _, _ => .nil, env2)
    | .star, [lhs, rhs] =>
      match eval lhs env with
      | (a, env1) =>
        match eval rhs env1 with
        | (b, env2) =>
          (match a, b with
           | .number x, .number y => .number (x * y)
           | _, _ => .nil, env2)
    | .slash, [lhs, rhs] =>
      match eval lhs env with
      | (a, env1) =>
        match eval rhs env1 with
        | (b, env2) =>
          (match a, b with
           | .number x, .number y => if y = 0 then Value.nil else .number (x / y)
           | _, _ => .nil, env2)
    | .less, [lhs, rhs] =>
      match eval lhs env with
      | (a, env1) =>
        match eval rhs env1 with
        | (b, env2) =>
          (.bool (match a, b with
                  | .number x, .number y => decide (x < y)
                  | _, _ => false), env2)
    | .lessEqual, [lhs, rhs] =>
      match eval lhs env with
      | (a, env1) =>
        match eval rhs env1 with
        | (b, env2) =>
          (.bool (match a, b with
                  | .number x, .number y => decide (x ≤ y)
                  | _, _ => false), env2)
    | .greater, [lhs, rhs] =>
      match eval lhs env with
      | (a, env1) =>
        match eval rhs env1 with
        | (b, env2) =>
          (.bool (match a, b with
                  | .number x, .number y => decide (y < x)
                  | _, _ => false), env2)
    | .greaterEqual, [lhs, rhs] =>
      match eval lhs env with
      | (a, env1) =>
        match eval rhs env1 with
        | (b, env2) =>
          (.bool (match a, b with
                  | .number x, .number y => decide (y ≤ x)
                  | _, _ => false), env2)
    | .equalEqual, [lhs, rhs] =>
      match eval lhs env with
      | (a, env1) =>
        match eval rhs env1 with
        | (b, env2) => (.bool (valueEq a b), env2)
    | .bangEqual, [lhs, rhs] =>
      match eval (.cons .equalEqual [lhs, rhs]) env with
      | (.bool eq, env') => (.bool (!eq), env')
      | (_, env') => (.bool false, env')
    | .andOp, [lhs, rhs] =>
      match eval lhs env with
      | (left, env') =>
        if left.is_truthy then eval rhs env' else (left, env')
    | .orOp, [lhs, rhs] =>
      match eval lhs env with
      | (left, env') =>
        if left.is_truthy then (left, env') else eval rhs env'
    | _, _ => (.nil, env)
  | .ifS _ _ _, env => (.nil, env)
  | .funDecl _ _ _, env => (.nil, env)
  | .call _ _, env => (.nil, env)
termination_by t _ => t.size
decreasing_by
  all_goals simp [TokenTree.size, TokenTree.sizeList, opExtra] <;> omega

/-- The observable interpreter state for statement execution: the environment
(Rust field `env` of `Interpreter`) together with the lines written to
standard output by `print`, oldest first. -/
structure RunState where
  env : Env
  output : List String

mutual

/-- Rust `Interpreter::exec`, with fuel.  Each arm mirrors one arm of the
Rust `match`: a `Group` statement runs all its children in order, `If`
branches on the truthiness of its evaluated condition, `Var` and `Print`
act only when their children match the expected shape (the Rust inner
`if let`, a silent no-op otherwise), `While` re-evaluates its condition
before each iteration, and the catch-all evaluates the node as an
expression, keeping only the environment mutation.  `none` means the fuel
ran out; the Rust original simply recurses unboundedly. -/
def exec : Nat → TokenTree → RunState → Option RunState
  | 0, _, _ => none
  | fuel + 1, node, s =>
    match node with
    | .cons .group children => execList fuel children s
    | .ifS condition yes no =>
      match eval condition s.env with
      | (v, env') =>
        if v.is_truthy then exec fuel yes { s with env := env' }
        else
          match no with
          | some noBranch => exec fuel noBranch { s with env := env' }
          | none => some { s with env := env' }
    | .cons .var children =>
      match children with
      | [.atom (.ident name), expr] =>
        match eval expr s.env with
        | (value, env') => some { s with env := env'.define name value }
      | _ => some s
    | .cons .print children =>
      match children with
      | [expr] =>
        match eval expr s.env with
        | (value, env') =>
          some { env := env', output := s.output ++ [value.to_display] }
      | _ => some s
    | .cons .whileOp children =>
      match children with
      | [cond, body] =>
        match eval cond s.env with
        | (v, env') =>
          if v.is_truthy then
            match exec fuel body { s with env := env' } with
            | some s' => exec fuel (.cons .whileOp [cond, body]) s'
            | none => none
          else some { s with env := env' }
      | _ => some s
    | other =>
      match eval other s.env with
      | (_, env') => some { s with env := env' }
termination_by fuel _ _ => (fuel, 0)

/-- The body of Rust `Interpreter::eval_program` and of the `Group` arm of
`exec`: run the statements left to right, threading the state. -/
def execList : Nat → List TokenTree → RunState → Option RunState
  | _, [], s => some s
  | fuel, t :: ts, s =>
    match exec fuel t s with
    | some s' => execList fuel ts s'
    | none => none
termination_by fuel ts _ => (fuel, ts.length + 1)

end

/-- Rust `Interpreter::eval_program`, with fuel: execute the parsed
statements in order against the initial state. -/
def eval_program (fuel : Nat) (stmts : List TokenTree) : Option RunState :=
  execList fuel stmts { env := emptyEnv, output := [] }

/-- Reference iteration scheme for the `while` claim, following the words of
the spec: `loopIters cond body fuel k s` succeeds exactly when, starting from
`s`, each of the first `k` loop-top evaluations of `cond` is truthy and is
followed by one execution of `body`, and the next loop-top evaluation of
`cond` is falsy; the result is the state after that final condition
evaluation.  Fuel is threaded exactly as `exec` threads it. -/
def loopIters (cond body : TokenTree) : Nat → Nat → RunState → Option RunState
  | 0, _, _ => none
  | _ + 1, 0, s =>
    match eval cond s.env with
    | (v, env') => if v.is_truthy then none else some { s with env := env' }
  | fuel + 1, k + 1, s =>
    match eval cond s.env with
    | (v, env') =>
      if v.is_truthy then
        match exec fuel body { s with env := env' } with
        | some s' => loopIters cond body fuel k s'
        | none => none
      else none


/-- Leftmost, non-overlapping replacement of every occurrence of `needle` by
`repl`, the behaviour of Rust `str::replace` on character lists.  The first
argument is recursion fuel; one character at least is consumed per step, so
any fuel at least the length of the haystack computes the full replacement
(`rustReplace` below passes exactly that).  A fuel-indexed formulation keeps
the function structurally recursive and hence evaluable by the kernel. -/
def replaceAux (needle repl : List Char) : Nat → List Char → List Char
  | 0, l => l
  | _ + 1, [] => []
  | fuel + 1, c :: rest =>
    if needle.isPrefixOf (c :: rest) ∧ 0 < needle.length then
      repl ++ replaceAux needle repl fuel (rest.drop (needle.length - 1))
    else c :: replaceAux needle repl fuel rest

/-- Rust `str::replace`: replace every occurrence of `patt` in `s` by
`sub`, scanning left to right without overlap. -/
def rustReplace (s patt sub : String) : String :=
  ⟨replaceAux patt.data sub.data s.data.length s.data⟩

/-- Apply a sequence of `(pattern, replacement)` pairs to `contents`, one
full-string `replace` pass per pair, in the order given: the loop body of
`translate_file_contents` in `translator.rs`. -/
def translateWith (pairs : List (String × String)) (contents : String) : String :=
  pairs.foldl (fun out p => rustReplace out p.1 p.2) contents

/-- The fifteen keyword replacements of `translator.rs`, listed in the order
the Rust source inserts them into its `HashMap`. -/
def replacements : List (String × String) :=
  [("श्रेणी", "class"), ("अथ्वा", "else"), ("असत्य", "false"),
   ("पुरा", "for"), ("विनियोग", "fun"), ("यदि", "if"),
   ("नेति", "nil"), ("विकल्प", "or"), ("कथय", "print"),
   ("देयम", "return"), ("महा", "super"), ("यह", "this"),
   ("सत्य", "true"), ("चर", "var"), ("यावद", "while")]

/-- The same fifteen pairs with the entries for `असत्य` (false) and `सत्य`
(true) exchanged: a second possible iteration order of the `HashMap`. -/
def replacementsAlt : List (String × String) :=
  [("श्रेणी", "class"), ("अथ्वा", "else"), ("सत्य", "true"),
   ("पुरा", "for"), ("विनियोग", "fun"), ("यदि", "if"),
   ("नेति", "nil"), ("विकल्प", "or"), ("कथय", "print"),
   ("देयम", "return"), ("महा", "super"), ("यह", "this"),
   ("असत्य", "false"), ("चर", "var"), ("यावद", "while")]

/-- Rust `translate_file_contents`.  The source builds a `HashMap` of the
fifteen pairs and then iterates it with a `for` loop, applying one `replace`
pass per pair; Rust leaves `HashMap` iteration order unspecified (it is
randomized per process), so the order of application is taken here as a
parameter ranging over the permutations of `replacements`.  The Rust return
type is `miette::Result`, but the function always returns `Ok`, so no error
channel is modelled. -/
def translate_file_contents (order : List (String × String)) (contents : String) : String :=
  translateWith order contents

/-- Same-variant test on runtime values, used to state the equality claim:
the four variant pairs the `EqualEqual` arm compares by value. -/
def sameVariant : Value → Value → Bool
  | .nil, .nil => true
  | .bool _, .bool _ => true
  | .number _, .number _ => true
  | .string _, .string _ => true
  | _, _ => false

/-- The value produced by the `Slash` arm of `eval_expr` from the two operand
values: the inner `match` of that arm, named so the claims can quantify over
operand values. -/
def slashResult : Value → Value → Value
  | .number x, .number y => if y = 0 then Value.nil else .number (x / y)
  | _, _ => .nil

/-- The value produced by the `Plus` arm of `eval_expr` from the two operand
values: the inner `match` of that arm, arms in source order. -/
def plusResult : Value → Value → Value
  | .number x, .number y => .number (x + y)
  | .string x, .string y => .string (x ++ y)
  | .string x, b => .string (x ++ b.to_display)
  | a, .string y => .string (a.to_display ++ y)
  | _, _ => .nil

/-- The operator/children shapes the `match` of `eval_expr` recognizes, one
line per source arm: `Group` accepts any children, `Minus` is unary or
binary, `Assign` requires an identifier atom on the left, the remaining
binary operators require exactly two children.  Every `(op, children)` pair
outside this table falls into the catch-all arm of the source. -/
def evalShapeOk : Op → List TokenTree → Bool
  | .group, _ => true
  | .minus, [_] => true
  | .bang, [_] => true
  | .assign, [.atom (.ident _), _] => true
  | .minus, [_, _] => true
  | .plus, [_, _] => true
  | .star, [_, _] => true
  | .slash, [_, _] => true
  | .less, [_, _] => true
  | .lessEqual, [_, _] => true
  | .greater, [_, _] => true
  | .greaterEqual, [_, _] => true
  | .equalEqual, [_, _] => true
  | .bangEqual, [_, _] => true
  | .andOp, [_, _] => true
  | .orOp, [_, _] => true
  | _, _ => false

/-! ## The refined number model for the division and equality claims

`Value.number` above carries `ℚ`, which has no infinities and no NaN.  The
division claim (never an infinity) and the equality claim (reflexivity for
every same-variant pair) are exactly the claims those special values decide,
so they are settled against the refinement below: an `f64` is a finite
double — carried exactly, with no rounding or overflow modelled — or one of
the special classes `inf`, `-inf`, `NaN`.  Signed zero is collapsed into
`finite 0`. -/

/-- IEEE-754 binary64 values, abstracted: exact finite doubles plus the
three special classes. -/
inductive F where
  | finite (q : ℚ)
  | inf
  | negInf
  | nan
deriving DecidableEq

namespace F

/-- IEEE-754 negation on doubles. -/
def neg : F → F
  | .finite q => .finite (-q)
  | .inf => .negInf
  | .negInf => .inf
  | .nan => .nan

/-- IEEE-754 addition: NaN propagates, opposite infinities give NaN, an
infinity absorbs finite values, finite sums are exact (overflow to an
infinity is not modelled). -/
def add : F → F → F
  | .nan, _ => .nan
  | _, .nan => .nan
  | .inf, .negInf => .nan
  | .negInf, .inf => .nan
  | .inf, _ => .inf
  | _, .inf => .inf
  | .negInf, _ => .negInf
  | _, .negInf => .negInf
  | .finite x, .finite y => .finite (x + y)

/-- IEEE-754 subtraction, same conventions as `add`. -/
def sub : F → F → F
  | .nan, _ => .nan
  | _, .nan => .nan
  | .inf, .inf => .nan
  | .negInf, .negInf => .nan
  | .inf, _ => .inf
  | .negInf, _ => .negInf
  | _, .inf => .negInf
  | _, .negInf => .inf
  | .finite x, .finite y => .finite (x - y)

/-- IEEE-754 multiplication: NaN propagates, an infinity times zero is NaN,
otherwise infinities combine and absorb by sign; finite products are exact. -/
def mul : F → F → F
  | .nan, _ => .nan
  | _, .nan => .nan
  | .inf, .inf => .inf
  | .inf, .negInf => .negInf
  | .negInf, .inf => .negInf
  | .negInf, .negInf => .inf
  | .inf, .finite q => if q = 0 then .nan else if q < 0 then .negInf else .inf
  | .finite q, .inf => if q = 0 then .nan else if q < 0 then .negInf else .inf
  | .negInf, .finite q => if q = 0 then .nan else if q < 0 then .inf else .negInf
  | .finite q, .negInf => if q = 0 then .nan else if q < 0 then .inf else .negInf
  | .finite x, .finite y => .finite (x * y)

/-- IEEE-754 division: NaN propagates, infinity over infinity is NaN, an
infinite dividend over a finite divisor stays infinite (by quotient sign), a
finite dividend over an infinite divisor is zero, finite over finite is the
exact quotient — except division by zero, which gives NaN at zero dividend
and a signed infinity otherwise.  (The evaluator guards the zero divisor
before dividing, so that last case is unreachable from `evalF`.) -/
def div : F → F → F
  | .nan, _ => .nan
  | _, .nan => .nan
  | .inf, .inf => .nan
  | .inf, .negInf => .nan
  | .negInf, .inf => .nan
  | .negInf, .negInf => .nan
  | .inf, .finite q => if q < 0 then .negInf else .inf
  | .negInf, .finite q => if q < 0 then .inf else .negInf
  | .finite _, .inf => .finite 0
  | .finite _, .negInf => .finite 0
  | .finite x, .finite y =>
      if y = 0 then
        if x = 0 then .nan else if x < 0 then .negInf else .inf
      else .finite (x / y)

/-- IEEE-754 `==` on doubles: NaN compares unequal to everything, itself
included; the infinities compare by class; finite values by value. -/
def beq : F → F → Bool
  | .nan, _ => false
  | _, .nan => false
  | .inf, .inf => true
  | .negInf, .negInf => true
  | .finite x, .finite y => x == y
  | _, _ => false

/-- IEEE-754 `<`: false whenever NaN is involved, otherwise the extended
order. -/
def lt : F → F → Bool
  | .nan, _ => false
  | _, .nan => false
  | .inf, _ => false
  | .negInf, .negInf => false
  | .negInf, _ => true
  | .finite _, .inf => true
  | .finite _, .negInf => false
  | .finite x, .finite y => decide (x < y)

/-- IEEE-754 `<=`: false whenever NaN is involved, otherwise the extended
order. -/
def le : F → F → Bool
  | .nan, _ => false
  | _, .nan => false
  | .negInf, _ => true
  | _, .inf => true
  | .inf, _ => false
  | .finite _, .negInf => false
  | .finite x, .finite y => decide (x ≤ y)

end F

/-- Runtime values over the refined number model. -/
inductive ValueF where
  | nil
  | number (n : F)
  | bool (b : Bool)
  | string (s : String)
deriving DecidableEq

namespace ValueF

/-- Rust `Value::is_truthy` over the refined model; every number, special or
not, is truthy. -/
def is_truthy : ValueF → Bool
  | .nil => false
  | .bool b => b
  | _ => true

/-- Rust `Value::to_display` over the refined model.  The `n == n.trunc()`
test of the source holds for the infinities (`inf.trunc()` is `inf` and the
comparison is true), so they print with the `.0` suffix; it fails for NaN,
which prints through `to_string`. -/
def to_display : ValueF → String
  | .nil => "nil"
  | .number (.finite n) => if n.den = 1 then toString n.num ++ ".0" else toString n
  | .number .inf => "inf.0"
  | .number .negInf => "-inf.0"
  | .number .nan => "NaN"
  | .bool b => toString b
  | .string s => s

/-- Variant test used to state the refined division claim. -/
def isNumber : ValueF → Bool
  | .number _ => true
  | _ => false

/-- Does this value hold NaN?  The one same-variant pair `==` is not
reflexive at. -/
def isNaN : ValueF → Bool
  | .number .nan => true
  | _ => false

/-- Does this value hold an infinity? -/
def isInfinite : ValueF → Bool
  | .number .inf => true
  | .number .negInf => true
  | _ => false

end ValueF

/-- The variable environment over the refined value model. -/
def EnvF : Type := String → Option ValueF

/-- Rust `Env::default()` over the refined model. -/
def emptyEnvF : EnvF := fun _ => none

namespace EnvF

/-- Rust `Env::define` over the refined model. -/
def define (env : EnvF) (name : String) (value : ValueF) : EnvF :=
  fun n => if n = name then some value else env n

/-- Rust `Env::assign` over the refined model, branch structure as in the
source. -/
def assign (env : EnvF) (name : String) (value : ValueF) : EnvF :=
  match env name with
  | some _ => fun n => if n = name then some value else env n
  | none => env.define name value

/-- Rust `Env::get` over the refined model. -/
def get (env : EnvF) (name : String) : ValueF :=
  match env name with
  | some v => v
  | none => .nil

end EnvF

/-- Terminal nodes over the refined number model. -/
inductive AtomF where
  | number (n : F)
  | bool (b : Bool)
  | nil
  | string (s : String)
  | ident (name : String)
  | superTok
  | thisTok
deriving DecidableEq

/-- The syntax tree over the refined number model, same shape as
`TokenTree`. -/
inductive TokenTreeF where
  | atom (a : AtomF)
  | cons (op : Op) (children : List TokenTreeF)
  | ifS (condition : TokenTreeF) (yes : TokenTreeF) (no : Option TokenTreeF)
  | funDecl (name : String) (params : List String) (body : TokenTreeF)
  | call (callee : TokenTreeF) (args : List TokenTreeF)

mutual

/-- Weighted size, the termination measure for `evalF` (same weighting as
`TokenTree.size`). -/
def TokenTreeF.size : TokenTreeF → Nat
  | .atom _ => 1
  | .cons op children => 1 + opExtra op + TokenTreeF.sizeList children
  | .ifS c y no =>
      1 + c.size + y.size + (match no with | some t => t.size | none => 0)
  | .funDecl _ _ body => 1 + body.size
  | .call callee args => 1 + callee.size + TokenTreeF.sizeList args

/-- Summed weighted size of a list of trees. -/
def TokenTreeF.sizeList : List TokenTreeF → Nat
  | [] => 0
  | t :: ts => t.size + TokenTreeF.sizeList ts

end

/-- The `match` inside the `EqualEqual` arm over the refined model: numbers
compare with IEEE `==`, so `NaN` is unequal to itself. -/
def valueEqF : ValueF → ValueF → Bool
  | .nil, .nil => true
  | .bool x, .bool y => x == y
  | .number x, .number y => F.beq x y
  | .string x, .string y => x == y
  | _, _ => false

/-- Same-variant test over the refined model, for stating the equality
claim. -/
def sameVariantF : ValueF → ValueF → Bool
  | .nil, .nil => true
  | .bool _, .bool _ => true
  | .number _, .number _ => true
  | .string _, .string _ => true
  | _, _ => false

/-- The value produced by the `Slash` arm from two operand values, refined
model: the Rust pattern `Value::Number(0.0)` is an equality test against
`0.0` (which NaN and the infinities fail, and `-0.0` — collapsed here —
passes), so it is rendered as the `b = finite 0` guard. -/
def slashResultF : ValueF → ValueF → ValueF
  | .number a, .number b =>
      if b = .finite 0 then .nil else .number (F.div a b)
  | _, _ => .nil

/-- Rust `Interpreter::eval_expr` over the refined number model: every arm
is the arm of `eval` above with the `ℚ` operations replaced by the IEEE
ones.  Rust `a > b` and `a >= b` on `f64` agree with `b < a` and `b <= a`
(both false when NaN is involved), which is how the two greater arms are
rendered. -/
def evalF : TokenTreeF → EnvF → ValueF × EnvF
  | .atom a, env =>
    match a with
    | .number n => (.number n, env)
    | .bool b => (.bool b, env)
    | .nil => (.nil, env)
    | .string s => (.string s, env)
    | .ident name => (env.get name, env)
    | .superTok => (.nil, env)
    | .thisTok => (.nil, env)
  | .cons op children, env =>
    match op, children with
    | .group, [] => (.nil, env)
    | .group, first :: _ => evalF first env
    | .minus, [e] =>
      match evalF e env with
      | (.number n, env') => (.number (F.neg n), env')
      | (_, env') => (.nil, env')
    | .bang, [e] =>
      match evalF e env with
      | (v, env') => (.bool (!v.is_truthy), env')
    | .assign, [.atom (.ident name), e] =>
      match evalF e env with
      | (v, env') => (v, env'.assign name v)
    | .plus, [lhs, rhs] =>
      match evalF lhs env with
      | (a, env1) =>
        match evalF rhs env1 with
        | (b, env2) =>
          (match a, b with
           | .number x, .number y => .number (F.add x y)
           | .string x, .string y => .string (x ++ y)
           | .string x, b' => .string (x ++ b'.to_display)
           | a', .string y => .string (a'.to_display ++ y)
           | _, _ => .nil, env2)
    | .minus, [lhs, rhs] =>
      match evalF lhs env with
      | (a, env1) =>
        match evalF rhs env1 with
        | (b, env2) =>
          (match a, b with
           | .number x, .number y => .number (F.sub x y)
           | _, _ => .nil, env2)
    | .star, [lhs, rhs] =>
      match evalF lhs env with
      | (a, env1) =>
        match evalF rhs env1 with
        | (b, env2) =>
          (match a, b with
           | .number x, .number y => .number (F.mul x y)
           | _, _ => .nil, env2)
    | .slash, [lhs, rhs] =>
      match evalF lhs env with
      | (a, env1) =>
        match evalF rhs env1 with
        | (b, env2) => (slashResultF a b, env2)
    | .less, [lhs, rhs] =>
      match evalF lhs env with
      | (a, env1) =>
        match evalF rhs env1 with
        | (b, env2) =>
          (.bool (match a, b with
                  | .number x, .number y => F.lt x y
                  | _, _ => false), env2)
    | .lessEqual, [lhs, rhs] =>
      match evalF lhs env with
      | (a, env1) =>
        match evalF rhs env1 with
        | (b, env2) =>
          (.bool (match a, b with
                  | .number x, .number y => F.le x y
                  | _, _ => false), env2)
    | .greater, [lhs, rhs] =>
      match evalF lhs env with
      | (a, env1) =>
        match evalF rhs env1 with
        | (b, env2) =>
          (.bool (match a, b with
                  | .number x, .number y => F.lt y x
                  | _, _ => false), env2)
    | .greaterEqual, [lhs, rhs] =>
      match evalF lhs env with
      | (a, env1) =>
        match evalF rhs env1 with
        | (b, env2) =>
          (.bool (match a, b with
                  | .number x, .number y => F.le y x
                  | _, _ => false), env2)
    | .equalEqual, [lhs, rhs] =>
      match evalF lhs env with
      | (a, env1) =>
        match evalF rhs env1 with
        | (b, env2) => (.bool (valueEqF a b), env2)
    | .bangEqual, [lhs, rhs] =>
      match evalF (.cons .equalEqual [lhs, rhs]) env with
      | (.bool eq, env') => (.bool (!eq), env')
      | (_, env') => (.bool false, env')
    | .andOp, [lhs, rhs] =>
      match evalF lhs env with
      | (left, env') =>
        if left.is_truthy then evalF rhs env' else (left, env')
    | .orOp, [lhs, rhs] =>
      match evalF lhs env with
      | (left, env') =>
        if left.is_truthy then (left, env') else evalF rhs env'
    | _, _ => (.nil, env)
  | .ifS _ _ _, env => (.nil, env)
  | .funDecl _ _ _, env => (.nil, env)
  | .call _ _, env => (.nil, env)
termination_by t _ => t.size
decreasing_by
  all_goals simp [TokenTreeF.size, TokenTreeF.sizeList, opExtra] <;> omega

/-! ## Arm-by-arm unfolding equations for `eval`

`eval` is defined by well-founded recursion, so its equations do not hold by
kernel reduction; each lemma below exposes one arm of the source `match`. -/

lemma eval_ident_eq (name : String) (env : Env) :
    eval (.atom (.ident name)) env = (env.get name, env) := by
  rw [eval.eq_def]

lemma eval_assign_eq (name : String) (e : TokenTree) (env : Env) :
    eval (.cons .assign [.atom (.ident name), e]) env =
      (match eval e env with
       | (v, env') => (v, env'.assign name v)) := by
  rw [eval.eq_def]

lemma eval_plus_eq (lhs rhs : TokenTree) (env : Env) :
    eval (.cons .plus [lhs, rhs]) env =
      (match eval lhs env with
       | (a, env1) =>
         match eval rhs env1 with
         | (b, env2) => (plusResult a b, env2)) := by
  rw [eval.eq_def]
  rcases h1 : eval lhs env with ⟨a, env1⟩
  rcases h2 : eval rhs env1 with ⟨b, env2⟩
  simp only [h1, h2]
  cases a <;> cases b <;> rfl

lemma eval_slash_eq (lhs rhs : TokenTree) (env : Env) :
    eval (.cons .slash [lhs, rhs]) env =
      (match eval lhs env with
       | (a, env1) =>
         match eval rhs env1 with
         | (b, env2) => (slashResult a b, env2)) := by
  rw [eval.eq_def]
  rcases h1 : eval lhs env with ⟨a, env1⟩
  rcases h2 : eval rhs env1 with ⟨b, env2⟩
  simp only [h1, h2]
  cases a <;> cases b <;> rfl

lemma eval_equalEqual_eq (lhs rhs : TokenTree) (env : Env) :
    eval (.cons .equalEqual [lhs, rhs]) env =
      (match eval lhs env with
       | (a, env1) =>
         match eval rhs env1 with
         | (b, env2) => (.bool (valueEq a b), env2)) := by
  rw [eval.eq_def]

lemma eval_bangEqual_eq (lhs rhs : TokenTree) (env : Env) :
    eval (.cons .bangEqual [lhs, rhs]) env =
      (match eval (.cons .equalEqual [lhs, rhs]) env with
       | (.bool eq, env') => (.bool (!eq), env')
       | (_, env') => (.bool false, env')) := by
  rw [eval.eq_def]

lemma eval_and_eq (lhs rhs : TokenTree) (env : Env) :
    eval (.cons .andOp [lhs, rhs]) env =
      (match eval lhs env with
       | (left, env') =>
         if left.is_truthy then eval rhs env' else (left, env')) := by
  rw [eval.eq_def]

lemma eval_or_eq (lhs rhs : TokenTree) (env : Env) :
    eval (.cons .orOp [lhs, rhs]) env =
      (match eval lhs env with
       | (left, env') =>
         if left.is_truthy then (left, env') else eval rhs env') := by
  rw [eval.eq_def]

/-- The `EqualEqual` arm always produces a `Bool` value. -/
lemma eval_equalEqual_is_bool (l r : TokenTree) (env : Env) :
    ∃ b env', eval (.cons .equalEqual [l, r]) env = (.bool b, env') := by
  rcases h1 : eval l env with ⟨a, env1⟩
  rcases h2 : eval r env1 with ⟨b, env2⟩
  refine ⟨valueEq a b, env2, ?_⟩
  rw [eval_equalEqual_eq, h1]
  simp only [h2]

/-! ## The claims -/

/-- C4: `+` adds two numbers; when either operand is a string the result is
the concatenation with the non-string side rendered through `to_display`;
every remaining pairing gives `Nil`.  `plusResult` lists the arms in source
order, so its two-string arm takes precedence exactly as in the code. -/
theorem plus_semantics (l r : TokenTree) (env env1 env2 : Env)
    (va vb : Value)
    (h1 : eval l env = (va, env1)) (h2 : eval r env1 = (vb, env2)) :
    eval (.cons .plus [l, r]) env = (plusResult va vb, env2) ∧
    (∀ a b : ℚ, va = .number a → vb = .number b →
        plusResult va vb = .number (a + b)) ∧
    (∀ a : String, va = .string a → vb.isString = false →
        plusResult va vb = .string (a ++ vb.to_display)) ∧
    (∀ b : String, vb = .string b → va.isString = false →
        plusResult va vb = .string (va.to_display ++ b)) ∧
    (∀ a b : String, va = .string a → vb = .string b →
        plusResult va vb = .string (a ++ b)) ∧
    ((va.isNumber = false ∨ vb.isNumber = false) →
        va.isString = false → vb.isString = false →
        plusResult va vb = .nil) := by
  refine ⟨?_, ?_, ?_, ?_, ?_, ?_⟩
  · rw [eval_plus_eq, h1]
    simp only [h2]
  · rintro a b rfl rfl; rfl
  · rintro a rfl hb
    cases vb <;> simp_all [plusResult, Value.isString]
  · rintro b rfl ha
    cases va <;> simp_all [plusResult, Value.isString]
  · rintro a b rfl rfl; rfl
  · intro h ha hb
    cases va <;> cases vb <;>
      simp_all [plusResult, Value.isString, Value.isNumber]

/-- Witness for C4: adding two numbers, the spec scenario
`"a" + 1 = "a1.0"`, the symmetric coercion, and a `Nil` fallback pairing. -/
theorem plus_semantics_witness :
    eval (.cons .plus [.atom (.number 2), .atom (.number 3)]) emptyEnv
        = (.number 5, emptyEnv) ∧
    eval (.cons .plus [.atom (.string "a"), .atom (.number 1)]) emptyEnv
        = (.string "a1.0", emptyEnv) ∧
    eval (.cons .plus [.atom (.number 1), .atom (.string "a")]) emptyEnv
        = (.string "1.0a", emptyEnv) ∧
    eval (.cons .plus [.atom (.bool true), .atom .nil]) emptyEnv
        = (.nil, emptyEnv) := by
  refine ⟨?_, ?_, ?_, ?_⟩
  · have h := plus_semantics (.atom (.number 2)) (.atom (.number 3))
      emptyEnv emptyEnv emptyEnv (.number 2) (.number 3)
      (by simp [eval]) (by simp [eval])
    rw [h.1]; simp [plusResult]; norm_num
  · have h := plus_semantics (.atom (.string "a")) (.atom (.number 1))
      emptyEnv emptyEnv emptyEnv (.string "a") (.number 1)
      (by simp [eval]) (by simp [eval])
    rw [h.1]; simp [plusResult, Value.to_display]; decide
  · have h := plus_semantics (.atom (.number 1)) (.atom (.string "a"))
      emptyEnv emptyEnv emptyEnv (.number 1) (.string "a")
      (by simp [eval]) (by simp [eval])
    rw [h.1]; simp [plusResult, Value.to_display]; decide
  · have h := plus_semantics (.atom (.bool true)) (.atom .nil)
      emptyEnv emptyEnv emptyEnv (.bool true) .nil
      (by simp [eval]) (by simp [eval])
    rw [h.1]; simp [plusResult]

/-- C3: `and` and `or` evaluate the left operand first; when its truthiness
decides the result, the whole expression is exactly the left result — the
same value and the same environment, whatever `r` is, so `r` causes no
mutation (and expression evaluation writes no output at all); otherwise the
result is the evaluation of `r` in the environment the left operand left
behind.  The result is one of the operand values, never a fresh boolean. -/
theorem and_or_short_circuit (l r : TokenTree) (env env1 : Env) (v : Value)
    (h1 : eval l env = (v, env1)) :
    eval (.cons .andOp [l, r]) env
        = (if v.is_truthy then eval r env1 else (v, env1)) ∧
    eval (.cons .orOp [l, r]) env
        = (if v.is_truthy then (v, env1) else eval r env1) := by
  constructor
  · rw [eval_and_eq, h1]
  · rw [eval_or_eq, h1]

/-- Witness for C3: the right operand is an assignment to `x`, a side
effect; with a falsy (resp. truthy) left operand, `and` (resp. `or`) returns
the left value and the environment still has no binding for `x`. -/
theorem and_or_short_circuit_witness :
    eval (.cons .andOp [.atom (.bool false),
        .cons .assign [.atom (.ident "x"), .atom (.number 1)]]) emptyEnv
      = (.bool false, emptyEnv) ∧
    eval (.cons .orOp [.atom (.bool true),
        .cons .assign [.atom (.ident "x"), .atom (.number 1)]]) emptyEnv
      = (.bool true, emptyEnv) ∧
    emptyEnv "x" = none := by
  have ha := and_or_short_circuit (.atom (.bool false))
    (.cons .assign [.atom (.ident "x"), .atom (.number 1)])
    emptyEnv emptyEnv (.bool false) (by simp [eval])
  have ho := and_or_short_circuit (.atom (.bool true))
    (.cons .assign [.atom (.ident "x"), .atom (.number 1)])
    emptyEnv emptyEnv (.bool true) (by simp [eval])
  exact ⟨by simpa using ha.1, by simpa using ho.2, rfl⟩

/-- C6: an assignment expression evaluates its right-hand side, then updates
the binding of the assigned name (creating it when absent) to the computed
value, leaves every other binding exactly as the right-hand side left it,
and itself evaluates to the assigned value. -/
theorem assignment_semantics (name : String) (e : TokenTree)
    (env env' : Env) (v : Value) (h : eval e env = (v, env')) :
    eval (.cons .assign [.atom (.ident name), e]) env = (v, env'.assign name v) ∧
    (env'.assign name v) name = some v ∧
    (∀ other, other ≠ name → (env'.assign name v) other = env' other) := by
  refine ⟨?_, ?_, ?_⟩
  · rw [eval_assign_eq, h]
  · unfold Env.assign Env.define
    cases env' name <;> simp
  · intro other hne
    unfold Env.assign Env.define
    cases env' name <;> simp [hne]

/-- Witness for C6: assigning `2` to the unbound `x` yields the value `2`,
binds `x`, and leaves `y` unbound. -/
theorem assignment_semantics_witness :
    eval (.cons .assign [.atom (.ident "x"), .atom (.number 2)]) emptyEnv
        = (.number 2, emptyEnv.assign "x" (.number 2)) ∧
    (emptyEnv.assign "x" (.number 2)) "x" = some (.number 2) ∧
    (emptyEnv.assign "x" (.number 2)) "y" = none := by
  have h := assignment_semantics "x" (.atom (.number 2)) emptyEnv emptyEnv
    (.number 2) (by simp [eval])
  refine ⟨h.1, h.2.1, ?_⟩
  have := h.2.2 "y" (by decide)
  simpa [emptyEnv] using this

/-- C7: referencing an identifier with no binding evaluates to `Nil`, not an
error; and evaluation of any tree in any environment produces a plain
value/environment pair — `eval` is a total function into `Value × Env`, with
no error channel in its type. -/
theorem unbound_identifier_nil (env : Env) (name : String)
    (h : env name = none) :
    eval (.atom (.ident name)) env = (.nil, env) ∧
    (∀ t : TokenTree, ∃ (v : Value) (env' : Env), eval t env = (v, env')) := by
  constructor
  · rw [eval_ident_eq]
    simp [Env.get, h]
  · intro t
    exact ⟨(eval t env).1, (eval t env).2, rfl⟩

/-- Witness for C7: the unbound name `x` in the empty environment. -/
theorem unbound_identifier_nil_witness :
    eval (.atom (.ident "x")) emptyEnv = (.nil, emptyEnv) :=
  (unbound_identifier_nil emptyEnv "x" rfl).1

/-- C8: `!=` is computed by re-entering the evaluator on an `EqualEqual` node
over the same operands and negating the boolean it returns; since the
equality arm always returns a `Bool`, so does `!=`. -/
theorem bang_equal_negates_equal :
    (∀ (l r : TokenTree) (env env' : Env) (b : Bool),
        eval (.cons .equalEqual [l, r]) env = (.bool b, env') →
        eval (.cons .bangEqual [l, r]) env = (.bool (!b), env')) ∧
    (∀ (l r : TokenTree) (env : Env), ∃ (b : Bool) (env' : Env),
        eval (.cons .equalEqual [l, r]) env = (.bool b, env') ∧
        eval (.cons .bangEqual [l, r]) env = (.bool (!b), env')) := by
  have main : ∀ (l r : TokenTree) (env env' : Env) (b : Bool),
      eval (.cons .equalEqual [l, r]) env = (.bool b, env') →
      eval (.cons .bangEqual [l, r]) env = (.bool (!b), env') := by
    intro l r env env' b h
    rw [eval_bangEqual_eq, h]
  refine ⟨main, fun l r env => ?_⟩
  obtain ⟨b, env', h⟩ := eval_equalEqual_is_bool l r env
  exact ⟨b, env', h, main l r env env' b h⟩

/-- Witness for C8: `1 != 2` negates `1 == 2`. -/
theorem bang_equal_negates_equal_witness :
    eval (.cons .bangEqual [.atom (.number 1), .atom (.number 2)]) emptyEnv
        = (.bool true, emptyEnv) := by
  have heq : eval (.cons .equalEqual [.atom (.number 1), .atom (.number 2)])
      emptyEnv = (.bool false, emptyEnv) := by
    simp [eval, valueEq]
  simpa using bang_equal_negates_equal.1 (.atom (.number 1))
    (.atom (.number 2)) emptyEnv emptyEnv false heq

/-- C9: a `Cons` node whose operator/children shape matches no arm of the
evaluator — malformed arity included — evaluates to `Nil` with the
environment untouched, and so do `Fun` and `Call` nodes; all three are
ordinary value results of the total function `eval`, not a crash or an
error. -/
theorem malformed_and_fun_call_nil :
    (∀ (op : Op) (children : List TokenTree) (env : Env),
        evalShapeOk op children = false →
        eval (.cons op children) env = (.nil, env)) ∧
    (∀ (n : String) (ps : List String) (b : TokenTree) (env : Env),
        eval (.funDecl n ps b) env = (.nil, env)) ∧
    (∀ (c : TokenTree) (args : List TokenTree) (env : Env),
        eval (.call c args) env = (.nil, env)) := by
  refine ⟨?_, ?_, ?_⟩
  · intro op children env h
    rw [eval.eq_def]
    split <;> try simp_all [evalShapeOk]
    all_goals (split <;> simp_all [evalShapeOk])
  · intro n ps b env
    rw [eval.eq_def]
  · intro c args env
    rw [eval.eq_def]

/-- Witness for C9: `Plus` applied to a single child (wrong arity), `Assign`
with a non-identifier target, a `Fun` node and a `Call` node all evaluate to
`Nil` in the empty environment. -/
theorem malformed_and_fun_call_nil_witness :
    eval (.cons .plus [.atom (.number 1)]) emptyEnv = (.nil, emptyEnv) ∧
    eval (.cons .assign [.atom (.number 1), .atom (.number 2)]) emptyEnv
        = (.nil, emptyEnv) ∧
    eval (.funDecl "f" ["x"] (.atom .nil)) emptyEnv = (.nil, emptyEnv) ∧
    eval (.call (.atom (.ident "f")) []) emptyEnv = (.nil, emptyEnv) := by
  refine ⟨?_, ?_, ?_, ?_⟩
  · exact malformed_and_fun_call_nil.1 .plus [.atom (.number 1)] emptyEnv
      (by decide)
  · exact malformed_and_fun_call_nil.1 .assign
      [.atom (.number 1), .atom (.number 2)] emptyEnv (by decide)
  · exact malformed_and_fun_call_nil.2.1 "f" ["x"] (.atom .nil) emptyEnv
  · exact malformed_and_fun_call_nil.2.2 (.atom (.ident "f")) [] emptyEnv

/-- Out of fuel, `exec` reports failure rather than a state. -/
lemma exec_zero_eq (t : TokenTree) (s : RunState) : exec 0 t s = none := by
  rw [exec.eq_def]

/-- One unfolding of the `While` arm of `exec`: evaluate the condition,
keep its environment mutation, run the body and loop again when truthy,
stop when falsy. -/
lemma exec_while_eq (cond body : TokenTree) (fuel : Nat) (s : RunState) :
    exec (fuel + 1) (.cons .whileOp [cond, body]) s =
      (match eval cond s.env with
       | (v, env') =>
         if v.is_truthy then
           match exec fuel body { s with env := env' } with
           | some s' => exec fuel (.cons .whileOp [cond, body]) s'
           | none => none
         else some { s with env := env' }) := by
  rw [exec.eq_def]

/-- C5: a `while` statement that completes within its fuel does exactly this,
for a unique iteration count `k`: the condition is re-evaluated at the top of
every iteration, the body runs exactly once after each of the `k` truthy
loop-top evaluations, and the loop stops at the first falsy loop-top
evaluation, whose environment effect is kept (`loopIters` is precisely that
schedule). -/
theorem while_semantics (cond body : TokenTree) (fuel : Nat) (s sf : RunState) :
    exec fuel (.cons .whileOp [cond, body]) s = some sf ↔
    ∃ k, loopIters cond body fuel k s = some sf := by
  induction fuel generalizing s with
  | zero =>
    rw [exec_zero_eq]
    constructor
    · intro h; cases h
    · rintro ⟨k, hk⟩; cases k <;> simp [loopIters] at hk
  | succ fuel ih =>
    rcases hc : eval cond s.env with ⟨v, env'⟩
    rw [exec_while_eq, hc]
    by_cases hv : v.is_truthy
    · simp only [hv, eq_self_iff_true, if_true]
      rcases hb : exec fuel body { s with env := env' } with _ | s'
      · simp only [hb]
        constructor
        · intro h; cases h
        · rintro ⟨k, hk⟩
          cases k with
          | zero => simp [loopIters, hc, hv] at hk
          | succ k => simp [loopIters, hc, hv, hb] at hk
      · simp only [hb]
        rw [ih]
        constructor
        · rintro ⟨k, hk⟩
          exact ⟨k + 1, by simp [loopIters, hc, hv, hb, hk]⟩
        · rintro ⟨k, hk⟩
          cases k with
          | zero => simp [loopIters, hc, hv] at hk
          | succ k =>
            exact ⟨k, by simpa [loopIters, hc, hv, hb] using hk⟩
    · simp only [hv, if_false, Bool.false_eq_true]
      constructor
      · intro h
        exact ⟨0, by simpa [loopIters, hc, hv] using h⟩
      · rintro ⟨k, hk⟩
        cases k with
        | zero => simpa [loopIters, hc, hv] using hk
        | succ k => simp [loopIters, hc, hv] at hk

/-- C10: the keyword pre-translation is NOT order-independent.  The two
orders below are permutations of each other — both are possible iteration
orders of the Rust `HashMap` — yet on the input `असत्य` (the Sanskrit keyword
for `false`) one produces `false` and the other `अtrue`, because `सत्य`
(true) is a suffix of `असत्य` and replacing it first destroys the longer
match.  Since Rust randomizes `HashMap` iteration per process, the output of
`translate_file_contents` on this input can differ between invocations. -/
theorem translator_order_dependent :
    List.Perm replacements replacementsAlt ∧
    translate_file_contents replacements "असत्य" = "false" ∧
    translate_file_contents replacementsAlt "असत्य" = "अtrue" ∧
    translate_file_contents replacements "असत्य" ≠
      translate_file_contents replacementsAlt "असत्य" :=
  ⟨by decide, by decide, by decide, by decide⟩

/-! ## The division and equality claims, settled on the refined model -/

lemma evalF_slash_eq (lhs rhs : TokenTreeF) (env : EnvF) :
    evalF (.cons .slash [lhs, rhs]) env =
      (match evalF lhs env with
       | (a, env1) =>
         match evalF rhs env1 with
         | (b, env2) => (slashResultF a b, env2)) := by
  rw [evalF.eq_def]

lemma evalF_equalEqual_eq (lhs rhs : TokenTreeF) (env : EnvF) :
    evalF (.cons .equalEqual [lhs, rhs]) env =
      (match evalF lhs env with
       | (a, env1) =>
         match evalF rhs env1 with
         | (b, env2) => (.bool (valueEqF a b), env2)) := by
  rw [evalF.eq_def]

/-- Symmetry of the IEEE `==` test (both directions are false at NaN). -/
lemma F.beq_symm (x y : F) : F.beq x y = F.beq y x := by
  cases x <;> cases y <;> simp [F.beq] <;> exact eq_comm

/-- C1 is false of the program: an infinite dividend — `inf` is itself an
`f64` runtime value — over the nonzero finite divisor `2` propagates to an
infinite quotient, so division of two numbers with a nonzero divisor CAN
yield an infinity. -/
theorem division_infinity_counterexample :
    evalF (.cons .slash
        [.atom (.number .inf), .atom (.number (.finite 2))]) emptyEnvF
      = (.number .inf, emptyEnvF) ∧
    F.finite 2 ≠ F.finite 0 ∧
    (ValueF.number F.inf).isInfinite = true := by
  refine ⟨?_, by decide, rfl⟩
  simp [evalF, slashResultF, F.div]

/-- C1 as amended: division of two numbers yields `Nil` when the divisor
equals `0.0` (for any numeric dividend) and `Number (a / b)` — the IEEE-754
quotient, which is an infinity or NaN exactly when special operands
propagate — when the divisor is not `0.0`; when either operand is not a
number the result is `Nil`; evaluation never raises an error (`evalF` is
total into `ValueF × EnvF`). -/
theorem division_semantics_ieee (l r : TokenTreeF) (env env1 env2 : EnvF)
    (va vb : ValueF)
    (h1 : evalF l env = (va, env1)) (h2 : evalF r env1 = (vb, env2)) :
    evalF (.cons .slash [l, r]) env = (slashResultF va vb, env2) ∧
    (∀ a b : F, va = .number a → vb = .number b → b = .finite 0 →
        slashResultF va vb = .nil) ∧
    (∀ a b : F, va = .number a → vb = .number b → b ≠ .finite 0 →
        slashResultF va vb = .number (F.div a b)) ∧
    (va.isNumber = false ∨ vb.isNumber = false → slashResultF va vb = .nil) := by
  refine ⟨?_, ?_, ?_, ?_⟩
  · rw [evalF_slash_eq, h1]
    simp only [h2]
  · rintro a b rfl rfl rfl
    simp [slashResultF]
  · rintro a b rfl rfl hb
    simp [slashResultF, hb]
  · intro h
    cases va <;> cases vb <;> simp_all [slashResultF, ValueF.isNumber]

/-- Witness for the amended C1: `6 / 3` is `Number 2`, `1 / 0` is `Nil`,
`inf / 2` is `Number inf`, `true / 3` is `Nil`. -/
theorem division_semantics_ieee_witness :
    evalF (.cons .slash
        [.atom (.number (.finite 6)), .atom (.number (.finite 3))]) emptyEnvF
      = (.number (.finite 2), emptyEnvF) ∧
    evalF (.cons .slash
        [.atom (.number (.finite 1)), .atom (.number (.finite 0))]) emptyEnvF
      = (.nil, emptyEnvF) ∧
    evalF (.cons .slash
        [.atom (.number .inf), .atom (.number (.finite 2))]) emptyEnvF
      = (.number .inf, emptyEnvF) ∧
    evalF (.cons .slash
        [.atom (.bool true), .atom (.number (.finite 3))]) emptyEnvF
      = (.nil, emptyEnvF) := by
  refine ⟨?_, ?_, ?_, ?_⟩
  · have h := division_semantics_ieee (.atom (.number (.finite 6)))
      (.atom (.number (.finite 3))) emptyEnvF emptyEnvF emptyEnvF
      (.number (.finite 6)) (.number (.finite 3))
      (by simp [evalF]) (by simp [evalF])
    rw [h.1]; simp [slashResultF, F.div]; norm_num
  · have h := division_semantics_ieee (.atom (.number (.finite 1)))
      (.atom (.number (.finite 0))) emptyEnvF emptyEnvF emptyEnvF
      (.number (.finite 1)) (.number (.finite 0))
      (by simp [evalF]) (by simp [evalF])
    rw [h.1]; simp [slashResultF]
  · have h := division_semantics_ieee (.atom (.number .inf))
      (.atom (.number (.finite 2))) emptyEnvF emptyEnvF emptyEnvF
      (.number .inf) (.number (.finite 2))
      (by simp [evalF]) (by simp [evalF])
    rw [h.1]; simp [slashResultF, F.div]
  · have h := division_semantics_ieee (.atom (.bool true))
      (.atom (.number (.finite 3))) emptyEnvF emptyEnvF emptyEnvF
      (.bool true) (.number (.finite 3))
      (by simp [evalF]) (by simp [evalF])
    rw [h.1]; simp [slashResultF]

/-- C2 is false of the program: `Number NaN` is a same-variant pair with
itself — NaN is itself an `f64` runtime value — yet `NaN == NaN` evaluates
to `Bool false`, so `==` is not reflexive on every same-variant pair. -/
theorem equality_nan_counterexample :
    evalF (.cons .equalEqual
        [.atom (.number .nan), .atom (.number .nan)]) emptyEnvF
      = (.bool false, emptyEnvF) ∧
    valueEqF (.number .nan) (.number .nan) = false ∧
    sameVariantF (.number .nan) (.number .nan) = true := by
  refine ⟨?_, rfl, rfl⟩
  simp [evalF, valueEqF, F.beq]

/-- C2 as amended: the equality test is reflexive for every same-variant
value except `Number NaN` (IEEE `==` makes NaN unequal to itself), symmetric
for every pair, by-value on same-variant pairs, and `Bool false` on every
cross-variant pair — `nil == false` included; the `EqualEqual` arm of the
evaluator wraps exactly this test in a `Bool`. -/
theorem equality_semantics_ieee :
    (∀ v : ValueF, v.isNaN = false → valueEqF v v = true) ∧
    (∀ a b : ValueF, valueEqF a b = valueEqF b a) ∧
    (∀ a b : ValueF, sameVariantF a b = false → valueEqF a b = false) ∧
    valueEqF .nil (.bool false) = false ∧
    (∀ (l r : TokenTreeF) (env env1 env2 : EnvF) (va vb : ValueF),
        evalF l env = (va, env1) → evalF r env1 = (vb, env2) →
        evalF (.cons .equalEqual [l, r]) env = (.bool (valueEqF va vb), env2)) := by
  refine ⟨?_, ?_, ?_, rfl, ?_⟩
  · rintro (_ | n | b | s) hv
    · rfl
    · cases n <;> simp_all [valueEqF, F.beq, ValueF.isNaN]
    · simp [valueEqF]
    · simp [valueEqF]
  · intro a b
    cases a <;> cases b <;> simp [valueEqF] <;>
      first
        | exact eq_comm
        | exact F.beq_symm ..
  · intro a b h
    cases a <;> cases b <;> simp_all [valueEqF, sameVariantF]
  · intro l r env env1 env2 va vb h1 h2
    rw [evalF_equalEqual_eq, h1]
    simp only [h2]

/-- Witness for the amended C2: reflexivity at the non-NaN `Number 2`,
a cross-variant pair, and the spec scenario `nil == false` evaluating to
`Bool false`. -/
theorem equality_semantics_ieee_witness :
    valueEqF (.number (.finite 2)) (.number (.finite 2)) = true ∧
    valueEqF (.number (.finite 2)) (.string "2") = false ∧
    evalF (.cons .equalEqual [.atom .nil, .atom (.bool false)]) emptyEnvF
        = (.bool false, emptyEnvF) := by
  refine ⟨equality_semantics_ieee.1 _ (by decide),
    equality_semantics_ieee.2.2.1 _ _ (by decide), ?_⟩
  have h := equality_semantics_ieee.2.2.2.2 (.atom .nil) (.atom (.bool false))
    emptyEnvF emptyEnvF emptyEnvF .nil (.bool false)
    (by simp [evalF]) (by simp [evalF])
  simpa [valueEqF] using h
